import Mathlib

/-!
Verification of the h1b-job-parser scripts against their specification.

Python strings are modelled as `List Char`; Python's tri-state
`True`/`False`/`None` classifier output is modelled as `Option Bool`.
The definitions below are direct transcriptions of the Python functions
`check_h1b_sponsorship` (main script and alternative script),
`is_within_24_hours`, `save_results` (CSV and JSON sides), the URL-deduplication
loops in the two `main()` functions, and `get_fallback_employer_list`.
-/

/-- Characters of a string literal; used to write Python string constants as `List Char`. -/
def strL (s : String) : List Char := s.data

/-- Python `str.lower()` applied characterwise (the repository only deals with ASCII text). -/
def lowerL (s : List Char) : List Char := s.map Char.toLower

/-- Python's substring test `pat in t` on character lists. -/
def substrIn (pat : List Char) : List Char → Bool
  | [] => pat.isEmpty
  | c :: rest => pat.isPrefixOf (c :: rest) || substrIn pat rest

/-- Keywords indicating H1B sponsorship, from `H1BJobParser.__init__` in the main script. -/
def h1b_keywords : List (List Char) :=
  [strL "h1b", strL "h-1b", strL "visa sponsorship", strL "work authorization",
   strL "sponsor visa", strL "eligible to work", strL "visa sponsor",
   strL "immigration sponsor", strL "work visa", strL "employment authorization",
   strL "opt", strL "cpt", strL "f1", strL "green card"]

/-- Keywords that indicate NO sponsorship, from `H1BJobParser.__init__` in the main script. -/
def no_sponsorship_keywords : List (List Char) :=
  [strL "no sponsorship", strL "no visa sponsorship", strL "must be authorized to work",
   strL "us citizen", strL "permanent resident", strL "green card required",
   strL "no h1b", strL "no visa support", strL "authorized to work without sponsorship"]

/-- High-confidence keyword subset, from `check_h1b_sponsorship` in the main script. -/
def high_confidence_keywords : List (List Char) :=
  [strL "h1b", strL "h-1b", strL "visa sponsorship", strL "sponsor visa"]

/-- Result record of `check_h1b_sponsorship`: the dict
`{"sponsors_h1b": ..., "confidence": ..., "keywords_found": ...}`. -/
structure H1BResult where
  sponsors_h1b : Option Bool
  confidence : List Char
  keywords_found : List (List Char)
deriving DecidableEq

/-- The main script's test `any(keyword in text for keyword in self.no_sponsorship_keywords)`. -/
def noSponsorshipHit (text : List Char) : Bool :=
  no_sponsorship_keywords.any (fun kw => substrIn kw text)

/-- The main script's comprehension `[keyword for keyword in self.h1b_keywords if keyword in text]`. -/
def foundKeywords (text : List Char) : List (List Char) :=
  h1b_keywords.filter (fun kw => substrIn kw text)

/-- The main script's test `any(kw in found_keywords for kw in high_confidence_keywords)`. -/
def strongHit (found : List (List Char)) : Bool :=
  high_confidence_keywords.any (fun kw => found.contains kw)

/-- `H1BJobParser.check_h1b_sponsorship` from the main script: lowercase the
description, short-circuit on any no-sponsorship keyword, otherwise collect the
positive keywords and grade confidence. -/
def check_h1b_sponsorship (job_description : List Char) : H1BResult :=
  let text := lowerL job_description
  if noSponsorshipHit text then
    ⟨some false, strL "high", []⟩
  else
    let found := foundKeywords text
    if found.isEmpty then
      ⟨none, strL "unknown", []⟩
    else
      ⟨some true, if strongHit found then strL "high" else strL "medium", found⟩

/-- H1B sponsorship keywords of the alternative script (`AlternativeH1BJobParser.__init__`). -/
def alt_h1b_keywords : List (List Char) :=
  [strL "h1b", strL "h-1b", strL "visa sponsorship", strL "work authorization",
   strL "sponsor visa", strL "immigration sponsor", strL "work visa",
   strL "employment authorization", strL "opt", strL "cpt", strL "green card",
   strL "visa support"]

/-- No-sponsorship keywords of the alternative script's `check_h1b_sponsorship`
(declared locally inside the function there). -/
def alt_no_sponsorship_keywords : List (List Char) :=
  [strL "no sponsorship", strL "no visa sponsorship", strL "must be authorized to work",
   strL "us citizen", strL "permanent resident", strL "no h1b",
   strL "authorized to work without sponsorship"]

/-- Negative-keyword test of the alternative script's `check_h1b_sponsorship`. -/
def altNoSponsorshipHit (text : List Char) : Bool :=
  alt_no_sponsorship_keywords.any (fun kw => substrIn kw text)

/-- Positive-keyword collection of the alternative script's `check_h1b_sponsorship`. -/
def altFoundKeywords (text : List Char) : List (List Char) :=
  alt_h1b_keywords.filter (fun kw => substrIn kw text)

/-- `AlternativeH1BJobParser.check_h1b_sponsorship`: same structure as the main
script's classifier with its own keyword lists (the strong subset is identical). -/
def alt_check_h1b_sponsorship (job_description : List Char) : H1BResult :=
  let text := lowerL job_description
  if altNoSponsorshipHit text then
    ⟨some false, strL "high", []⟩
  else
    let found := altFoundKeywords text
    if found.isEmpty then
      ⟨none, strL "unknown", []⟩
    else
      ⟨some true, if strongHit found then strL "high" else strL "medium", found⟩

/-- C1: whenever the lowercased input contains one of a classifier's own
no-sponsorship phrases, that classifier returns `sponsors_h1b = False` with
confidence "high" (and an empty keyword list), regardless of any positive
keyword in the same text - the negative check short-circuits the positive scan.
Stated for both implementations of `check_h1b_sponsorship`. -/
theorem c1_negative_short_circuit (t : List Char) :
    (noSponsorshipHit (lowerL t) = true →
      check_h1b_sponsorship t = ⟨some false, strL "high", []⟩) ∧
    (altNoSponsorshipHit (lowerL t) = true →
      alt_check_h1b_sponsorship t = ⟨some false, strL "high", []⟩) := by
  constructor <;> intro h <;>
    simp [check_h1b_sponsorship, alt_check_h1b_sponsorship, h]

/-- Witness for C1: the text "We offer H1B visa sponsorship but NO SPONSORSHIP for this role"
contains the phrase "no sponsorship" (after lowercasing) as well as positive keywords,
and both classifiers return the negative high-confidence result on it. -/
theorem c1_negative_short_circuit_witness :
    check_h1b_sponsorship (strL "We offer H1B visa sponsorship but NO SPONSORSHIP for this role")
        = ⟨some false, strL "high", []⟩ ∧
    alt_check_h1b_sponsorship (strL "We offer H1B visa sponsorship but NO SPONSORSHIP for this role")
        = ⟨some false, strL "high", []⟩ :=
  ⟨(c1_negative_short_circuit _).1 (by decide),
   (c1_negative_short_circuit _).2 (by decide)⟩

/-- C2: when the lowercased input contains no phrase from the main script's
no-sponsorship list, `check_h1b_sponsorship` returns: `sponsors_h1b = None`
with confidence "unknown" and no keywords if no positive keyword matches;
otherwise `sponsors_h1b = True` with the matched keywords, and confidence
"high" exactly when one of the matches is in the strong subset, else "medium". -/
theorem c2_positive_scan (t : List Char)
    (hneg : noSponsorshipHit (lowerL t) = false) :
    check_h1b_sponsorship t =
      if (foundKeywords (lowerL t)).isEmpty then
        ⟨none, strL "unknown", []⟩
      else
        ⟨some true,
         if strongHit (foundKeywords (lowerL t)) then strL "high" else strL "medium",
         foundKeywords (lowerL t)⟩ := by
  simp [check_h1b_sponsorship, hneg]

/-- Witness for C2: "OPT candidates welcome" has no negative phrase, matches only
the medium-tier keyword "opt", and the theorem instance evaluates accordingly. -/
theorem c2_positive_scan_witness :
    noSponsorshipHit (lowerL (strL "OPT candidates welcome")) = false ∧
    check_h1b_sponsorship (strL "OPT candidates welcome") =
      if (foundKeywords (lowerL (strL "OPT candidates welcome"))).isEmpty then
        ⟨none, strL "unknown", []⟩
      else
        ⟨some true,
         if strongHit (foundKeywords (lowerL (strL "OPT candidates welcome"))) then strL "high"
         else strL "medium",
         foundKeywords (lowerL (strL "OPT candidates welcome"))⟩ :=
  ⟨by decide, c2_positive_scan _ (by decide)⟩

/-- C6 counterexample: the text "sponsorship is not available" is NOT classified
as positive by `check_h1b_sponsorship` - the bare word "sponsorship" is not
among the positive keywords, so the claim that this text yields
`sponsors_h1b = True` is false. -/
theorem c6_counterexample :
    (check_h1b_sponsorship (strL "sponsorship is not available")).sponsors_h1b ≠ some true := by
  decide

/-- C6 amended: "sponsorship is not available" matches neither keyword class and
returns `sponsors_h1b = None` with confidence "unknown"; the unscoped-negation
gap the spec describes does occur for texts that contain a positive keyword,
e.g. "visa sponsorship is not available" is classified `True` / "high". -/
theorem c6_amended :
    check_h1b_sponsorship (strL "sponsorship is not available")
        = ⟨none, strL "unknown", []⟩ ∧
    check_h1b_sponsorship (strL "visa sponsorship is not available")
        = ⟨some true, strL "high", [strL "visa sponsorship", strL "visa sponsor"]⟩ := by
  decide

/-- C8: for both implementations of `check_h1b_sponsorship`, `keywords_found` is
non-empty exactly when `sponsors_h1b = True`; in particular every `False`
classification (and every `None` one) carries an empty `keywords_found` list. -/
theorem c8_keywords_iff_positive (t : List Char) :
    ((check_h1b_sponsorship t).keywords_found ≠ [] ↔
      (check_h1b_sponsorship t).sponsors_h1b = some true) ∧
    ((alt_check_h1b_sponsorship t).keywords_found ≠ [] ↔
      (alt_check_h1b_sponsorship t).sponsors_h1b = some true) := by
  constructor <;>
    · simp only [check_h1b_sponsorship, alt_check_h1b_sponsorship]
      split
      · simp
      · split <;> simp_all [List.isEmpty_iff]

/-- Whitespace characters matched by Python's `\s` and `str.strip()` (ASCII range). -/
def pyIsSpace (c : Char) : Bool :=
  c = ' ' || c = '\t' || c = '\n' || c = '\r' || c = '\x0b' || c = '\x0c'

/-- Python `str.strip()`: remove leading and trailing whitespace. -/
def stripEnds (s : List Char) : List Char :=
  ((s.dropWhile pyIsSpace).reverse.dropWhile pyIsSpace).reverse

/-- Greedy run of leading decimal digits (the regex `\d+`), with the rest of the input. -/
def takeDigits : List Char → List Char × List Char
  | [] => ([], [])
  | c :: rest =>
    if c.isDigit then
      let (ds, r) := takeDigits rest
      (c :: ds, r)
    else ([], c :: rest)

/-- Numeric value of a decimal digit character. -/
def digitVal (c : Char) : Nat := c.toNat - 48

/-- Python `int()` on a string of decimal digits. -/
def digitsToNat (ds : List Char) : Nat := ds.foldl (fun a c => a * 10 + digitVal c) 0

/-- The regex fragment `\s*`: drop any leading whitespace. -/
def dropWs (l : List Char) : List Char := l.dropWhile pyIsSpace

/-- Match a literal at the front of the input, returning the rest on success. -/
def dropLit (lit l : List Char) : Option (List Char) :=
  if lit.isPrefixOf l then some (l.drop lit.length) else none

/-- The regex fragment `\s*ago` tested at the front of the input. -/
def agoAfter (l : List Char) : Bool := (strL "ago").isPrefixOf (dropWs l)

/-- Tail of the regexes `(\d+)\s*hours?\s*ago` and `(\d+)\s*days?\s*ago` after
the digits: `\s*`, the unit word, an optional `s` (with backtracking), `\s*ago`. -/
def unitAgoTail (unit l : List Char) : Bool :=
  match dropLit unit (dropWs l) with
  | none => false
  | some r =>
    match r with
    | 's' :: r2 => agoAfter r2 || agoAfter r
    | _ => agoAfter r

/-- Model of `re.search(r'(\d+)\s*<unit>s?\s*ago', text)` followed by
`int(match.group(1))`: scan left to right for the first position where the
pattern matches and return the captured number. -/
def searchNumUnitAgo (unit : List Char) : List Char → Option Nat
  | [] => none
  | c :: rest =>
    if c.isDigit then
      let (ds, r) := takeDigits (c :: rest)
      if unitAgoTail unit r then some (digitsToNat ds)
      else searchNumUnitAgo unit rest
    else searchNumUnitAgo unit rest

/-- Date produced by the `datetime.strptime` calls in `is_within_24_hours`
(year is 1900 when the pattern does not bind it, as in CPython). -/
structure PDate where
  year : Nat
  month : Nat
  day : Nat
deriving DecidableEq

/-- CPython `_strptime` regex for `%m`: `1[0-2]|0[1-9]|[1-9]`, tried in that order. -/
def parseMonthNum : List Char → Option (Nat × List Char)
  | '1' :: c :: rest =>
    if '0' ≤ c ∧ c ≤ '2' then some (10 + digitVal c, rest) else some (1, c :: rest)
  | ['1'] => some (1, [])
  | '0' :: c :: rest => if '1' ≤ c ∧ c ≤ '9' then some (digitVal c, rest) else none
  | c :: rest => if '2' ≤ c ∧ c ≤ '9' then some (digitVal c, rest) else none
  | [] => none

/-- CPython `_strptime` regex for `%d`: `3[01]|[12]\d|0[1-9]|[1-9]`, in that order. -/
def parseDayNum : List Char → Option (Nat × List Char)
  | '3' :: c :: rest =>
    if c = '0' ∨ c = '1' then some (30 + digitVal c, rest) else some (3, c :: rest)
  | ['3'] => some (3, [])
  | '1' :: c :: rest => if c.isDigit then some (10 + digitVal c, rest) else some (1, c :: rest)
  | ['1'] => some (1, [])
  | '2' :: c :: rest => if c.isDigit then some (20 + digitVal c, rest) else some (2, c :: rest)
  | ['2'] => some (2, [])
  | '0' :: c :: rest => if '1' ≤ c ∧ c ≤ '9' then some (digitVal c, rest) else none
  | c :: rest => if '4' ≤ c ∧ c ≤ '9' then some (digitVal c, rest) else none
  | [] => none

/-- CPython `_strptime` regex for `%Y`: exactly four decimal digits. -/
def parseYear4 : List Char → Option (Nat × List Char)
  | a :: b :: c :: d :: rest =>
    if a.isDigit ∧ b.isDigit ∧ c.isDigit ∧ d.isDigit then
      some (digitVal a * 1000 + digitVal b * 100 + digitVal c * 10 + digitVal d, rest)
    else none
  | _ => none

/-- Abbreviated month names for `%b` (the input is already lowercased). -/
def monthAbbrevs : List (List Char) :=
  [strL "jan", strL "feb", strL "mar", strL "apr", strL "may", strL "jun",
   strL "jul", strL "aug", strL "sep", strL "oct", strL "nov", strL "dec"]

/-- Full month names for `%B` (the input is already lowercased). -/
def monthFulls : List (List Char) :=
  [strL "january", strL "february", strL "march", strL "april", strL "may",
   strL "june", strL "july", strL "august", strL "september", strL "october",
   strL "november", strL "december"]

/-- Match one month name from a list, returning its 1-based month number. -/
def parseMonthNameGo (idx : Nat) : List (List Char) → List Char → Option (Nat × List Char)
  | [], _ => none
  | n :: ns, l =>
    match dropLit n l with
    | some r => some (idx, r)
    | none => parseMonthNameGo (idx + 1) ns l

/-- The format-string literal blank, which `strptime` compiles to `\s+`. -/
def dropWs1 : List Char → Option (List Char)
  | c :: rest => if pyIsSpace c then some (dropWs rest) else none
  | [] => none

/-- Gregorian leap-year rule used by `datetime`. -/
def isLeap (y : Nat) : Bool := y % 4 = 0 && (y % 100 != 0 || y % 400 = 0)

/-- Number of days in a month, as validated by the `datetime` constructor. -/
def daysInMonth (y m : Nat) : Nat :=
  if m = 2 then (if isLeap y then 29 else 28)
  else if m = 4 ∨ m = 6 ∨ m = 9 ∨ m = 11 then 30
  else 31

/-- Validity check performed by the `datetime` constructor (month range is
already guaranteed by the `%m`/`%b`/`%B` parsers). -/
def validDate (y m d : Nat) : Bool :=
  1 ≤ y && y ≤ 9999 && 1 ≤ d && d ≤ daysInMonth y m

/-- Model of `datetime.strptime(text, '%m/%d/%Y')`: the whole string must be consumed. -/
def parse_mdY (l : List Char) : Option PDate :=
  match parseMonthNum l with
  | none => none
  | some (m, r1) =>
    match r1 with
    | '/' :: r2 =>
      match parseDayNum r2 with
      | none => none
      | some (d, r3) =>
        match r3 with
        | '/' :: r4 =>
          match parseYear4 r4 with
          | some (y, []) => if validDate y m d then some ⟨y, m, d⟩ else none
          | _ => none
        | _ => none
    | _ => none

/-- Model of `datetime.strptime(text, '%Y-%m-%d')`. -/
def parse_Ymd (l : List Char) : Option PDate :=
  match parseYear4 l with
  | none => none
  | some (y, r1) =>
    match r1 with
    | '-' :: r2 =>
      match parseMonthNum r2 with
      | none => none
      | some (m, r3) =>
        match r3 with
        | '-' :: r4 =>
          match parseDayNum r4 with
          | some (d, []) => if validDate y m d then some ⟨y, m, d⟩ else none
          | _ => none
        | _ => none
    | _ => none

/-- Model of `datetime.strptime(text, '%b %d')` / `'%B %d'`: month name, at
least one blank, day; `strptime` defaults the year to 1900. -/
def parse_monthNameDay (names : List (List Char)) (l : List Char) : Option PDate :=
  match parseMonthNameGo 1 names l with
  | none => none
  | some (m, r1) =>
    match dropWs1 r1 with
    | none => none
    | some r2 =>
      match parseDayNum r2 with
      | some (d, []) => if validDate 1900 m d then some ⟨1900, m, d⟩ else none
      | _ => none

/-- The `for pattern in date_patterns` loop of `is_within_24_hours`: try
`%m/%d/%Y`, `%Y-%m-%d`, `%b %d`, `%B %d` in order. -/
def tryParsePatterns (l : List Char) : Option PDate :=
  match parse_mdY l with
  | some d => some d
  | none =>
    match parse_Ymd l with
    | some d => some d
    | none =>
      match parse_monthNameDay monthAbbrevs l with
      | some d => some d
      | none => parse_monthNameDay monthFulls l

/-- Literal phrases treated as "today" by `is_within_24_hours` (substring test). -/
def todayLits : List (List Char) := [strL "today", strL "just posted", strL "0 days ago"]

/-- Literal phrases treated as "one day old" by `is_within_24_hours` (substring test). -/
def oneDayLits : List (List Char) := [strL "1 day ago", strL "yesterday", strL "24 hours ago"]

/-- Phrases that route `is_within_24_hours` into its days-extraction branch. -/
def daysAgoLits : List (List Char) := [strL "2 days ago", strL "3 days ago", strL "days ago"]

/-- Substrings that make `is_within_24_hours` return false immediately. -/
def weekLits : List (List Char) := [strL "week", strL "month", strL "year"]

/-- `H1BJobParser.is_within_24_hours`. The `recent` argument models the only
ambient-state step of the source: comparing the `strptime` result (with the
year-1900 default still visible, which the code replaces by the current year)
against `datetime.now()` with a 24-hour threshold. Every other step is
transcribed: the empty/"Unknown" guard, lowercasing and stripping, the
substring tests on the literal phrase lists, and the two regex extractions. -/
def is_within_24_hours (recent : PDate → Bool) (posting_date_text : List Char) : Bool :=
  if posting_date_text.isEmpty ∨ posting_date_text = strL "Unknown" then false
  else
    let t := stripEnds (lowerL posting_date_text)
    if todayLits.any (fun kw => substrIn kw t) then true
    else if oneDayLits.any (fun kw => substrIn kw t) then true
    else if substrIn (strL "hours ago") t then
      match searchNumUnitAgo (strL "hour") t with
      | some h => h ≤ 24
      | none => true
    else if daysAgoLits.any (fun kw => substrIn kw t) then
      match searchNumUnitAgo (strL "day") t with
      | some d => d ≤ 1
      | none => false
    else if weekLits.any (fun kw => substrIn kw t) then false
    else
      match tryParsePatterns t with
      | some d => recent d
      | none => false

/-- C3 failing input: the claim (and the function's own doc string) require
"10 days ago" to be excluded (N = 10 > 1), but the code returns true for it:
the literal "0 days ago" from its "today" list is tested with a substring
check and "10 days ago" contains it. The date oracle is irrelevant. -/
theorem c3_ten_days_ago_true (recent : PDate → Bool) :
    is_within_24_hours recent (strL "10 days ago") = true := rfl

/-- C4 failing input: the claim requires "124 hours ago" to be excluded
(N = 124 > 24), but the code returns true: the literal "24 hours ago" from its
"one day old" list is tested with a substring check and "124 hours ago"
contains it. The date oracle is irrelevant. -/
theorem c4_124_hours_ago_true (recent : PDate → Bool) :
    is_within_24_hours recent (strL "124 hours ago") = true := rfl

/-- C5 counterexample: a garbage string containing "hours ago" with no number
is claimed to yield false, but the code returns true - its hours branch ends
with `return True  # If we can't parse, assume it's recent`. -/
theorem c5_counterexample :
    is_within_24_hours (fun _ => false) (strL "a few hours ago") = true := rfl

/-- C5 amended: a posting-age string that contains none of the literal phrases,
does not contain the substring "hours ago", has no "N days ago" regex match,
and parses under none of the absolute date patterns, is excluded (false).
Unlike the original claim, a string containing "hours ago" without a parseable
number is treated as recent (true) by the code, per the counterexample. -/
theorem c5_amended_unrecognized_false (recent : PDate → Bool) (s : List Char)
    (h1 : todayLits.any (fun kw => substrIn kw (stripEnds (lowerL s))) = false)
    (h2 : oneDayLits.any (fun kw => substrIn kw (stripEnds (lowerL s))) = false)
    (h3 : substrIn (strL "hours ago") (stripEnds (lowerL s)) = false)
    (h4 : searchNumUnitAgo (strL "day") (stripEnds (lowerL s)) = none)
    (h5 : tryParsePatterns (stripEnds (lowerL s)) = none) :
    is_within_24_hours recent s = false := by
  simp [is_within_24_hours, h1, h2, h3, h4, h5]

/-- Witness for the amended C5 at the concrete garbage string "garbage". -/
theorem c5_amended_witness :
    todayLits.any (fun kw => substrIn kw (stripEnds (lowerL (strL "garbage")))) = false ∧
    oneDayLits.any (fun kw => substrIn kw (stripEnds (lowerL (strL "garbage")))) = false ∧
    substrIn (strL "hours ago") (stripEnds (lowerL (strL "garbage"))) = false ∧
    searchNumUnitAgo (strL "day") (stripEnds (lowerL (strL "garbage"))) = none ∧
    tryParsePatterns (stripEnds (lowerL (strL "garbage"))) = none ∧
    is_within_24_hours (fun _ => false) (strL "garbage") = false :=
  ⟨by decide, by decide, by decide, by decide, by decide,
   c5_amended_unrecognized_false _ _ (by decide) (by decide) (by decide)
     (by decide) (by decide)⟩

/-- Python values occurring in the repository's job/employer dicts: strings,
booleans, `None`, and lists of strings (`keywords_found`). -/
inductive PyVal where
  | vstr (s : List Char)
  | vbool (b : Bool)
  | vnone
  | vlist (l : List (List Char))
deriving DecidableEq

instance : Inhabited PyVal := ⟨PyVal.vnone⟩

/-- A Python dict with insertion order, as produced by the scrapers: an
association list from field names to values (dict keys are unique). -/
abbrev JobRec : Type := List (List Char × PyVal)

/-- Python `repr` of a simple string (no quotes or escapes inside), as used by
`str` on a list of strings. -/
def pyRepr (s : List Char) : List Char := '\'' :: (s ++ ['\''])

/-- Concatenate with a separator between elements (Python `sep.join`). -/
def joinWith (sep : List Char) : List (List Char) → List Char
  | [] => []
  | [x] => x
  | x :: y :: rest => x ++ sep ++ joinWith sep (y :: rest)

/-- Python `str()` of a value: strings unchanged, `True`/`False`/`None` by
name, lists in bracket notation with repr-quoted elements. -/
def pyStr : PyVal → List Char
  | .vstr s => s
  | .vbool true => strL "True"
  | .vbool false => strL "False"
  | .vnone => strL "None"
  | .vlist l => '[' :: (joinWith (strL ", ") (l.map pyRepr) ++ [']'])

/-- Conversion of one field by `csv.writer`: `None` becomes the empty string,
every other value its `str()` form. -/
def csvField : PyVal → List Char
  | .vnone => []
  | v => pyStr v

/-- Characters that force quoting under `csv.QUOTE_MINIMAL`. -/
def isCsvSpecial (c : Char) : Bool := c = ',' || c = '"' || c = '\r' || c = '\n'

/-- Double every double quote, as the csv writer does inside a quoted field. -/
def escapeQuotes : List Char → List Char
  | [] => []
  | c :: rest => if c = '"' then '"' :: '"' :: escapeQuotes rest else c :: escapeQuotes rest

/-- `csv.QUOTE_MINIMAL` encoding of one cell: quote it only when it contains a
special character. -/
def encodeCell (s : List Char) : List Char :=
  if s.any isCsvSpecial then '"' :: (escapeQuotes s ++ ['"']) else s

/-- Field-name list of a record (`jobs[0].keys()`). -/
def recKeys (r : JobRec) : List (List Char) := r.map Prod.fst

/-- Dict access by key. -/
def lookupKey (k : List Char) (r : JobRec) : Option PyVal := List.lookup k r

/-- Row produced by `csv.DictWriter.writerow` for one record: one cell per
field name, with the default `restval` (`None`, written as the empty string)
for a missing key. -/
def rowCells (fs : List (List Char)) (r : JobRec) : List (List Char) :=
  fs.map (fun f =>
    match lookupKey f r with
    | some v => csvField v
    | none => [])

/-- One physical CSV line: encoded cells joined by commas, terminated by the
writer's default `\r\n`. -/
def writeRow (cells : List (List Char)) : List Char :=
  joinWith [','] (cells.map encodeCell) ++ strL "\r\n"

/-- CSV content written by `save_results` (both the main script and the
myvisajobs script): header = keys of the first record, then one row per
record via `csv.DictWriter.writerows`. `none` models the `ValueError` the
writer raises when a record has a key outside the header; an empty job list
produces an empty file in the main script. -/
def save_results_csv (jobs : List JobRec) : Option (List Char) :=
  match jobs with
  | [] => some []
  | r0 :: _ =>
    let fs := recKeys r0
    if jobs.all (fun r => (recKeys r).all (fun k => fs.contains k)) then
      some (writeRow fs ++ (jobs.map (fun r => writeRow (rowCells fs r))).flatten)
    else none

/-- Strip one trailing carriage return from a physical line. -/
def stripCR (l : List Char) : List Char :=
  match l.reverse with
  | '\r' :: t => t.reverse
  | _ => l

/-- Split a character list at every occurrence of a character. -/
def splitOnChar (c : Char) : List Char → List (List Char)
  | [] => [[]]
  | x :: xs =>
    match splitOnChar c xs with
    | [] => [[]]
    | y :: ys => if x = c then [] :: y :: ys else (x :: y) :: ys

/-- Model of reading the CSV file back with `csv.DictReader` (for content
without quoted fields, which is what `save_results` emits when no cell
contains a special character): split into lines, drop the trailing empty
line, strip carriage returns, split each line on commas; the first line is
the header and each data row becomes a dict of string values. -/
def readCsvRecords (content : List Char) : Option (List JobRec) :=
  match (splitOnChar '\n' content).dropLast.map
      (fun l => splitOnChar ',' (stripCR l)) with
  | [] => none
  | header :: rows =>
    some (rows.map (fun cells => header.zip (cells.map PyVal.vstr)))

lemma encodeCell_plain {s : List Char} (h : ∀ ch ∈ s, isCsvSpecial ch = false) :
    encodeCell s = s := by
  cases hs : s.any isCsvSpecial with
  | false => simp [encodeCell, hs]
  | true =>
    exfalso
    rcases List.any_eq_true.mp hs with ⟨x, hx, hpx⟩
    rw [h x hx] at hpx
    exact Bool.false_ne_true hpx

lemma special_not_mem {c : Char} (hc : isCsvSpecial c = true) {x : List Char}
    (hp : ∀ ch ∈ x, isCsvSpecial ch = false) : c ∉ x := by
  intro hm
  have h2 := hp c hm
  rw [hc] at h2
  simp at h2

lemma splitOnChar_ne_nil (c : Char) (l : List Char) : splitOnChar c l ≠ [] := by
  cases l with
  | nil => simp [splitOnChar]
  | cons x xs =>
    simp only [splitOnChar]
    split
    · simp
    · split <;> simp

lemma splitOnChar_not_mem {c : Char} {l : List Char} (h : c ∉ l) :
    splitOnChar c l = [l] := by
  induction l with
  | nil => rfl
  | cons x xs ih =>
    have hx : ¬(x = c) := fun he => h (he ▸ List.mem_cons_self x xs)
    have hxs : c ∉ xs := fun hm => h (List.mem_cons_of_mem _ hm)
    simp [splitOnChar, ih hxs, hx]

lemma splitOnChar_append_cons (c : Char) (a r : List Char) (h : c ∉ a) :
    splitOnChar c (a ++ c :: r) = a :: splitOnChar c r := by
  induction a with
  | nil =>
    obtain ⟨y, ys, hys⟩ : ∃ y ys, splitOnChar c r = y :: ys := by
      cases hsp : splitOnChar c r with
      | nil => exact absurd hsp (splitOnChar_ne_nil c r)
      | cons y ys => exact ⟨y, ys, rfl⟩
    simp [splitOnChar, hys]
  | cons x a' ih =>
    have hx : ¬(x = c) := fun he => h (he ▸ List.mem_cons_self x a')
    have ha' : c ∉ a' := fun hm => h (List.mem_cons_of_mem _ hm)
    simp [splitOnChar, ih ha', hx]

lemma splitOnChar_flatten_lines (c : Char) (bs : List (List Char))
    (h : ∀ b ∈ bs, c ∉ b) :
    splitOnChar c ((bs.map (fun b => b ++ [c])).flatten) = bs ++ [[]] := by
  induction bs with
  | nil => rfl
  | cons b bs ih =>
    have hb : c ∉ b := h b (List.mem_cons_self _ _)
    have hbs : ∀ x ∈ bs, c ∉ x := fun x hx => h x (List.mem_cons_of_mem _ hx)
    calc splitOnChar c (((b :: bs).map (fun b => b ++ [c])).flatten)
        = splitOnChar c (b ++ c :: (bs.map (fun b => b ++ [c])).flatten) := by
          simp [List.append_assoc]
      _ = b :: splitOnChar c ((bs.map (fun b => b ++ [c])).flatten) :=
          splitOnChar_append_cons c _ _ hb
      _ = (b :: bs) ++ [[]] := by rw [ih hbs]; rfl

lemma not_mem_joinWith {x c : Char} (hxc : ¬(x = c)) :
    ∀ (cells : List (List Char)), (∀ s ∈ cells, x ∉ s) → x ∉ joinWith [c] cells
  | [], _ => by simp [joinWith]
  | [s], hp => by simpa [joinWith] using hp s (List.mem_cons_self _ _)
  | s :: t :: rest, hp => by
    have h1 : x ∉ s := hp s (List.mem_cons_self _ _)
    have h2 : x ∉ joinWith [c] (t :: rest) :=
      not_mem_joinWith hxc (t :: rest) (fun u hu => hp u (List.mem_cons_of_mem _ hu))
    simp [joinWith, List.mem_append, h1, h2, hxc]

lemma splitOnChar_joinWith (c : Char) :
    ∀ (cells : List (List Char)), cells ≠ [] → (∀ x ∈ cells, c ∉ x) →
      splitOnChar c (joinWith [c] cells) = cells
  | [], h, _ => absurd rfl h
  | [x], _, hp => by
    simpa [joinWith] using splitOnChar_not_mem (hp x (List.mem_cons_self _ _))
  | x :: y :: rest, _, hp => by
    have hx : c ∉ x := hp x (List.mem_cons_self _ _)
    have hrest : ∀ u ∈ y :: rest, c ∉ u := fun u hu => hp u (List.mem_cons_of_mem _ hu)
    calc splitOnChar c (joinWith [c] (x :: y :: rest))
        = splitOnChar c (x ++ c :: joinWith [c] (y :: rest)) := by
          simp [joinWith, List.append_assoc]
      _ = x :: splitOnChar c (joinWith [c] (y :: rest)) := splitOnChar_append_cons c _ _ hx
      _ = x :: (y :: rest) := by
          rw [splitOnChar_joinWith c (y :: rest) (by simp) hrest]

lemma stripCR_concat (l : List Char) : stripCR (l ++ ['\r']) = l := by
  simp [stripCR, List.reverse_append]

lemma writeRow_plain (cells : List (List Char))
    (hp : ∀ x ∈ cells, ∀ ch ∈ x, isCsvSpecial ch = false) :
    writeRow cells = (joinWith [','] cells ++ ['\r']) ++ ['\n'] := by
  unfold writeRow
  rw [List.map_congr_left (fun x hx => encodeCell_plain (hp x hx)), List.map_id']
  simp [strL, List.append_assoc]

lemma newline_not_mem_line (cells : List (List Char))
    (hp : ∀ s ∈ cells, ∀ ch ∈ s, isCsvSpecial ch = false) :
    '\n' ∉ joinWith [','] cells ++ ['\r'] := by
  intro hmem
  rcases List.mem_append.mp hmem with h | h
  · exact not_mem_joinWith (by decide) cells
      (fun s hs => special_not_mem (by decide) (hp s hs)) h
  · simp at h

lemma lookupKey_mem {k : List Char} {r : JobRec} {v : PyVal}
    (h : lookupKey k r = some v) : (k, v) ∈ r := by
  induction r with
  | nil => cases h
  | cons kv r' ih =>
    obtain ⟨k', v'⟩ := kv
    rw [lookupKey, List.lookup_cons] at h
    cases hbe : (k == k') with
    | true =>
      rw [hbe] at h
      cases h
      exact (eq_of_beq hbe) ▸ List.mem_cons_self _ _
    | false =>
      rw [hbe] at h
      exact List.mem_cons_of_mem _ (ih h)

lemma rowCells_self (r : JobRec) (hnd : (recKeys r).Nodup) :
    rowCells (recKeys r) r = r.map (fun kv => csvField kv.2) := by
  induction r with
  | nil => rfl
  | cons kv r' ih =>
    obtain ⟨k, v⟩ := kv
    have hnd2 : (k :: recKeys r').Nodup := hnd
    have hk : k ∉ recKeys r' := (List.nodup_cons.mp hnd2).1
    have hnd' : (recKeys r').Nodup := (List.nodup_cons.mp hnd2).2
    have hhead : lookupKey k ((k, v) :: r') = some v := by
      simp [lookupKey, List.lookup_cons]
    have htail : ∀ f ∈ recKeys r', lookupKey f ((k, v) :: r') = lookupKey f r' := by
      intro f hf
      have hne : ¬(f = k) := fun he => hk (he ▸ hf)
      have hbe : (f == k) = false := by
        simpa using hne
      simp [lookupKey, List.lookup_cons, hbe]
    show rowCells (k :: recKeys r') ((k, v) :: r') = _
    unfold rowCells
    simp only [List.map_cons, hhead]
    rw [List.map_congr_left (fun f hf => by rw [htail f hf])]
    have ih2 := ih hnd'
    unfold rowCells at ih2
    rw [ih2]

lemma readCsv_writeRows (fs : List (List Char)) (rows : List (List (List Char)))
    (hfs : fs ≠ [])
    (hpf : ∀ x ∈ fs, ∀ ch ∈ x, isCsvSpecial ch = false)
    (hrows : ∀ row ∈ rows, row ≠ [] ∧ ∀ x ∈ row, ∀ ch ∈ x, isCsvSpecial ch = false) :
    readCsvRecords (writeRow fs ++ (rows.map writeRow).flatten) =
      some (rows.map (fun cells => fs.zip (cells.map PyVal.vstr))) := by
  have hcontent : writeRow fs ++ (rows.map writeRow).flatten =
      (((joinWith [','] fs ++ ['\r']) ::
        rows.map (fun row => joinWith [','] row ++ ['\r'])).map
          (fun b => b ++ ['\n'])).flatten := by
    rw [writeRow_plain fs hpf,
        List.map_congr_left (fun row hr => writeRow_plain row (hrows row hr).2)]
    rw [List.map_cons, List.flatten_cons, List.map_map]
    rfl
  have hlines : ∀ b ∈ (joinWith [','] fs ++ ['\r']) ::
      rows.map (fun row => joinWith [','] row ++ ['\r']), '\n' ∉ b := by
    intro b hb
    rcases List.mem_cons.mp hb with he | hm
    · exact he ▸ newline_not_mem_line fs hpf
    · rcases List.mem_map.mp hm with ⟨row, hrow, he2⟩
      exact he2 ▸ newline_not_mem_line row (hrows row hrow).2
  have hsplit := splitOnChar_flatten_lines '\n' _ hlines
  rw [← hcontent] at hsplit
  have htail : ∀ row ∈ rows,
      splitOnChar ',' (stripCR (joinWith [','] row ++ ['\r'])) = row := by
    intro row hr
    rw [stripCR_concat]
    exact splitOnChar_joinWith ',' row (hrows row hr).1
      (fun x hx => special_not_mem (by decide) ((hrows row hr).2 x hx))
  have hmapped : (splitOnChar '\n'
      (writeRow fs ++ (rows.map writeRow).flatten)).dropLast.map
        (fun l => splitOnChar ',' (stripCR l)) = fs :: rows := by
    rw [hsplit, List.dropLast_concat]
    simp only [List.map_cons, List.map_map]
    rw [stripCR_concat,
        splitOnChar_joinWith ',' fs hfs
          (fun x hx => special_not_mem (by decide) (hpf x hx))]
    congr 1
    have h2 : List.map ((fun l => splitOnChar ',' (stripCR l)) ∘
        (fun row => joinWith [','] row ++ ['\r'])) rows = List.map (fun row => row) rows :=
      List.map_congr_left (fun row hr => htail row hr)
    rw [h2, List.map_id']
  unfold readCsvRecords
  rw [hmapped]

lemma rowCells_plain (fs : List (List Char)) (r : JobRec)
    (hv : ∀ kv ∈ r, ∀ ch ∈ csvField kv.2, isCsvSpecial ch = false) :
    ∀ x ∈ rowCells fs r, ∀ ch ∈ x, isCsvSpecial ch = false := by
  intro x hx ch hch
  rcases List.mem_map.mp hx with ⟨f, hf, he⟩
  cases hlk : lookupKey f r with
  | none =>
    rw [← he] at hch
    simp [hlk] at hch
  | some v =>
    rw [← he] at hch
    simp only [hlk] at hch
    exact hv (f, v) (lookupKey_mem hlk) ch hch

/-- JSON whitespace characters. -/
def jsonWs (c : Char) : Bool := c = ' ' || c = '\t' || c = '\n' || c = '\r'

/-- Drop leading JSON whitespace. -/
def skipWs (l : List Char) : List Char := l.dropWhile jsonWs

/-- Lowercase hex digit, as `json.dump` uses inside its 4-hex-digit control
escapes. -/
def hexDigitLower (n : Nat) : Char :=
  if n < 10 then Char.ofNat (48 + n) else Char.ofNat (87 + n)

/-- Escaping of one character by `json.dump` (with `ensure_ascii=False`):
quote, backslash and the named control escapes; other control characters get
the backslash-u form; everything else passes through unchanged. -/
def jsonEscapeChar (c : Char) : List Char :=
  if c = '"' then ['\\', '"']
  else if c = '\\' then ['\\', '\\']
  else if c = '\n' then ['\\', 'n']
  else if c = '\t' then ['\\', 't']
  else if c = '\r' then ['\\', 'r']
  else if c = '\x08' then ['\\', 'b']
  else if c = '\x0c' then ['\\', 'f']
  else if c.toNat < 32 then
    ['\\', 'u', '0', '0', hexDigitLower (c.toNat / 16), hexDigitLower (c.toNat % 16)]
  else [c]

/-- `json.dump` escaping of a whole string. -/
def jsonEscape (s : List Char) : List Char := (s.map jsonEscapeChar).flatten

/-- A JSON string literal as `json.dump` writes it. -/
def jsonStrLit (s : List Char) : List Char := '"' :: (jsonEscape s ++ ['"'])

/-- Indentation prefix of a nesting level under `indent=2`. -/
def jsonIndent (level : Nat) : List Char := List.replicate (2 * level) ' '

/-- JSON form of one value under `indent=2` at a nesting level: strings
quoted, booleans and `None` by name, a non-empty list spread over its own
lines, an empty list as `[]`. -/
def jsonVal (level : Nat) : PyVal → List Char
  | .vstr s => jsonStrLit s
  | .vbool true => strL "true"
  | .vbool false => strL "false"
  | .vnone => strL "null"
  | .vlist [] => strL "[]"
  | .vlist (s :: ss) =>
    '[' :: '\n' :: (jsonIndent (level + 1) ++
      (joinWith (',' :: '\n' :: jsonIndent (level + 1)) ((s :: ss).map jsonStrLit) ++
        ('\n' :: (jsonIndent level ++ [']']))))

/-- One `"key": value` member of a serialized dict (key separator `": "`). -/
def jsonMemberStr (level : Nat) (kv : List Char × PyVal) : List Char :=
  jsonStrLit kv.1 ++ ':' :: ' ' :: jsonVal level kv.2

/-- JSON form of one dict under `indent=2`. -/
def jsonObj (level : Nat) (r : JobRec) : List Char :=
  match r with
  | [] => strL "{}"
  | _ =>
    '{' :: '\n' :: (jsonIndent (level + 1) ++
      (joinWith (',' :: '\n' :: jsonIndent (level + 1))
          (r.map (jsonMemberStr (level + 1))) ++
        ('\n' :: (jsonIndent level ++ ['}']))))

/-- JSON content written by `save_results`:
`json.dump(jobs, jsonfile, indent=2, ensure_ascii=False)` on the job list. -/
def save_results_json (jobs : List JobRec) : List Char :=
  match jobs with
  | [] => strL "[]"
  | _ =>
    '[' :: '\n' :: (jsonIndent 1 ++
      (joinWith (',' :: '\n' :: jsonIndent 1) (jobs.map (jsonObj 1)) ++
        ('\n' :: (jsonIndent 0 ++ [']']))))

/-- Inverse of the named escapes, as `json.load` resolves them (the
4-hex-digit escape is not among them; the hypotheses below keep `json.dump`
from emitting it). -/
def unescapeChar (e : Char) : Option Char :=
  if e = '"' then some '"'
  else if e = '\\' then some '\\'
  else if e = '/' then some '/'
  else if e = 'n' then some '\n'
  else if e = 't' then some '\t'
  else if e = 'r' then some '\r'
  else if e = 'b' then some '\x08'
  else if e = 'f' then some '\x0c'
  else none

/-- Body of a JSON string after the opening quote: scan to the closing quote,
resolving backslash escapes. -/
def parseStringBody : List Char → Option (List Char × List Char)
  | [] => none
  | c :: rest =>
    if c = '"' then some ([], rest)
    else if c = '\\' then
      match rest with
      | [] => none
      | e :: rest2 =>
        match unescapeChar e, parseStringBody rest2 with
        | some uc, some (s, r) => some (uc :: s, r)
        | _, _ => none
    else
      match parseStringBody rest with
      | some (s, r) => some (c :: s, r)
      | none => none

/-- A JSON string token. -/
def parseJsonString (input : List Char) : Option (List Char × List Char) :=
  match input with
  | '"' :: rest => parseStringBody rest
  | _ => none

/-- Comma-separated items after the first one, up to the closing bracket.
The fuel is the remaining input length at entry; every iteration consumes at
least the comma, so that fuel suffices. -/
def parseJsonArrayTail {α : Type} (close : Char)
    (itemP : List Char → Option (α × List Char)) :
    Nat → List Char → Option (List α × List Char)
  | 0, _ => none
  | fuel + 1, input =>
    match skipWs input with
    | [] => none
    | c :: rest =>
      if c = close then some ([], rest)
      else if c = ',' then
        match itemP (skipWs rest) with
        | some (x, rest2) =>
          match parseJsonArrayTail close itemP fuel rest2 with
          | some (xs, rest3) => some (x :: xs, rest3)
          | none => none
        | none => none
      else none

/-- A JSON bracketed sequence, entered after its opening bracket. -/
def parseJsonArray {α : Type} (close : Char)
    (itemP : List Char → Option (α × List Char)) (input : List Char) :
    Option (List α × List Char) :=
  match skipWs input with
  | [] => none
  | c :: rest =>
    if c = close then some ([], rest)
    else
      match itemP (c :: rest) with
      | some (x, rest2) =>
        match parseJsonArrayTail close itemP rest2.length rest2 with
        | some (xs, rest3) => some (x :: xs, rest3)
        | none => none
      | none => none

/-- A JSON value of the shapes `save_results` emits: string, `true`, `false`,
`null`, or an array of strings. -/
def parseJsonValue (input : List Char) : Option (PyVal × List Char) :=
  match input with
  | '"' :: rest =>
    match parseStringBody rest with
    | some (s, r) => some (.vstr s, r)
    | none => none
  | '[' :: rest =>
    match parseJsonArray ']' parseJsonString rest with
    | some (l, r) => some (.vlist l, r)
    | none => none
  | _ =>
    if (strL "true").isPrefixOf input then some (.vbool true, input.drop 4)
    else if (strL "false").isPrefixOf input then some (.vbool false, input.drop 5)
    else if (strL "null").isPrefixOf input then some (.vnone, input.drop 4)
    else none

/-- One `"key": value` member of a JSON object. -/
def parseJsonMember (input : List Char) : Option ((List Char × PyVal) × List Char) :=
  match input with
  | '"' :: rest =>
    match parseStringBody rest with
    | some (k, rest2) =>
      match skipWs rest2 with
      | ':' :: rest3 =>
        match parseJsonValue (skipWs rest3) with
        | some (v, rest4) => some ((k, v), rest4)
        | none => none
      | _ => none
    | none => none
  | _ => none

/-- A JSON object read back as a record (members in file order, as
`json.load` preserves insertion order in a Python dict). -/
def parseJsonObj (input : List Char) : Option (JobRec × List Char) :=
  match input with
  | '{' :: rest => parseJsonArray '}' parseJsonMember rest
  | _ => none

/-- Model of reading the JSON file back with `json.load`: one top-level array
of objects, with nothing but whitespace after it. -/
def readJsonRecords (content : List Char) : Option (List JobRec) :=
  match skipWs content with
  | '[' :: rest =>
    match parseJsonArray ']' parseJsonObj rest with
    | some (recs, rest2) => if (skipWs rest2).isEmpty then some recs else none
    | none => none
  | _ => none

/-- Characters whose `json.dump` form is a literal or a named escape (no
4-hex-digit escape): everything except control characters other than the
five named ones. -/
def jsonSafeChar (c : Char) : Bool :=
  decide (32 ≤ c.toNat) || c = '\n' || c = '\t' || c = '\r' ||
    c = '\x08' || c = '\x0c'

/-- All strings inside a value are made of safe characters. -/
def jsonSafeVal : PyVal → Bool
  | .vstr s => s.all jsonSafeChar
  | .vbool _ => true
  | .vnone => true
  | .vlist l => l.all (fun s => s.all jsonSafeChar)

lemma skipWs_append (a b : List Char) (h : ∀ c ∈ a, jsonWs c = true) :
    skipWs (a ++ b) = skipWs b := by
  induction a with
  | nil => rfl
  | cons c a2 ih =>
    have hc := h c (List.mem_cons_self _ _)
    rw [List.cons_append]
    show List.dropWhile jsonWs (c :: (a2 ++ b)) = skipWs b
    rw [List.dropWhile_cons, if_pos hc]
    exact ih (fun x hx => h x (List.mem_cons_of_mem _ hx))

lemma skipWs_cons_nonws {c : Char} (r : List Char) (h : jsonWs c = false) :
    skipWs (c :: r) = c :: r := by
  simp [skipWs, List.dropWhile_cons, h]

lemma jsonIndent_ws (level : Nat) : ∀ c ∈ jsonIndent level, jsonWs c = true := by
  intro c hc
  rw [jsonIndent] at hc
  rw [List.eq_of_mem_replicate hc]
  rfl

lemma parseStringBody_inv : ∀ (s : List Char), s.all jsonSafeChar = true →
    ∀ rest, parseStringBody (jsonEscape s ++ '"' :: rest) = some (s, rest) := by
  intro s
  induction s with
  | nil => intro _ rest; simp [jsonEscape, parseStringBody.eq_def]
  | cons c s2 ih =>
    intro hs rest
    have hc : jsonSafeChar c = true := List.all_eq_true.mp hs c (List.mem_cons_self _ _)
    have hs2 : s2.all jsonSafeChar = true := by
      rw [List.all_eq_true]
      exact fun x hx => List.all_eq_true.mp hs x (List.mem_cons_of_mem _ hx)
    have hexp : jsonEscape (c :: s2) ++ '"' :: rest =
        jsonEscapeChar c ++ (jsonEscape s2 ++ '"' :: rest) := by
      simp [jsonEscape, List.append_assoc]
    rw [hexp]
    by_cases h1 : c = '"'
    · subst h1
      simp [jsonEscapeChar, parseStringBody, unescapeChar, ih hs2 rest]
    by_cases h2 : c = '\\'
    · subst h2
      simp [jsonEscapeChar, parseStringBody, unescapeChar, ih hs2 rest]
    by_cases h3 : c = '\n'
    · subst h3
      simp [jsonEscapeChar, parseStringBody, unescapeChar, ih hs2 rest]
    by_cases h4 : c = '\t'
    · subst h4
      simp [jsonEscapeChar, parseStringBody, unescapeChar, ih hs2 rest]
    by_cases h5 : c = '\r'
    · subst h5
      simp [jsonEscapeChar, parseStringBody, unescapeChar, ih hs2 rest]
    by_cases h6 : c = '\x08'
    · subst h6
      simp [jsonEscapeChar, parseStringBody, unescapeChar, ih hs2 rest]
    by_cases h7 : c = '\x0c'
    · subst h7
      simp [jsonEscapeChar, parseStringBody, unescapeChar, ih hs2 rest]
    have h32 : ¬(c.toNat < 32) := by
      simp [jsonSafeChar, h3, h4, h5, h6, h7] at hc
      omega
    have hch : jsonEscapeChar c = [c] := by
      simp [jsonEscapeChar, h1, h2, h3, h4, h5, h6, h7, h32]
    rw [hch, List.singleton_append]
    rw [parseStringBody.eq_def]
    simp only [if_neg h1, if_neg h2, ih hs2 rest]

lemma parseJsonString_inv (s : List Char) (hs : s.all jsonSafeChar = true)
    (rest : List Char) :
    parseJsonString (jsonStrLit s ++ rest) = some (s, rest) := by
  show parseStringBody ((jsonEscape s ++ ['"']) ++ rest) = some (s, rest)
  rw [List.append_assoc, List.singleton_append]
  exact parseStringBody_inv s hs rest

lemma tail_len_lt {α : Type} (print2 : α → List Char) (wsSep closeWs : List Char)
    (close : Char) (xs : List α) (rest : List Char) :
    xs.length < ((xs.map (fun y => ',' :: (wsSep ++ print2 y))).flatten ++
      (closeWs ++ close :: rest)).length := by
  induction xs with
  | nil => simp
  | cons y ys ih =>
    simp only [List.map_cons, List.flatten_cons, List.append_assoc,
      List.length_append, List.length_cons] at ih ⊢
    omega

lemma parseJsonArrayTail_inv {α : Type} (close : Char)
    (itemP : List Char → Option (α × List Char)) (print2 : α → List Char)
    (wsSep closeWs : List Char)
    (hws1 : ∀ c ∈ wsSep, jsonWs c = true) (hws2 : ∀ c ∈ closeWs, jsonWs c = true)
    (hcl : jsonWs close = false) (hcc : ¬(',' = close)) :
    ∀ (items : List α) (fuel : Nat), items.length < fuel →
      (∀ y ∈ items, (∀ r2, itemP (print2 y ++ r2) = some (y, r2)) ∧
        ∃ c cs, print2 y = c :: cs ∧ jsonWs c = false) →
      ∀ (rest : List Char),
        parseJsonArrayTail close itemP fuel
          ((items.map (fun y => ',' :: (wsSep ++ print2 y))).flatten ++
            (closeWs ++ close :: rest)) = some (items, rest) := by
  intro items
  induction items with
  | nil =>
    intro fuel hfuel _ rest
    cases fuel with
    | zero => omega
    | succ f =>
      rw [parseJsonArrayTail]
      simp only [List.map_nil, List.flatten_nil, List.nil_append]
      rw [skipWs_append closeWs (close :: rest) hws2, skipWs_cons_nonws _ hcl]
      simp
  | cons y ys ih =>
    intro fuel hfuel hitems rest
    cases fuel with
    | zero => omega
    | succ f =>
      obtain ⟨c0, cs0, hpy, hc0⟩ := (hitems y (List.mem_cons_self _ _)).2
      rw [parseJsonArrayTail]
      simp only [List.map_cons, List.flatten_cons, List.append_assoc,
        List.cons_append]
      rw [skipWs_cons_nonws _ (show jsonWs ',' = false from rfl)]
      simp only [if_neg hcc, if_pos]
      rw [skipWs_append wsSep _ hws1]
      have hsk : skipWs (print2 y ++
          ((ys.map (fun y2 => ',' :: (wsSep ++ print2 y2))).flatten ++
            (closeWs ++ close :: rest))) =
          print2 y ++ ((ys.map (fun y2 => ',' :: (wsSep ++ print2 y2))).flatten ++
            (closeWs ++ close :: rest)) := by
        rw [hpy, List.cons_append]
        exact skipWs_cons_nonws _ hc0
      rw [hsk]
      rw [(hitems y (List.mem_cons_self _ _)).1 _]
      simp only [ih f (Nat.lt_of_succ_lt_succ hfuel)
        (fun z hz => hitems z (List.mem_cons_of_mem _ hz)) rest]

lemma joinWith_cons_flatten (sep : List Char) :
    ∀ (l : List (List Char)) (a : List Char),
      joinWith sep (a :: l) = a ++ (l.map (fun b => sep ++ b)).flatten
  | [], a => by simp [joinWith]
  | b :: l2, a => by
    rw [joinWith]
    rw [joinWith_cons_flatten sep l2 b]
    simp [List.append_assoc]

lemma parseJsonArray_inv {α : Type} (close : Char)
    (itemP : List Char → Option (α × List Char)) (print2 : α → List Char)
    (ind1 ind0 : List Char) (x : α) (xs : List α)
    (hws1 : ∀ c ∈ ind1, jsonWs c = true) (hws0 : ∀ c ∈ ind0, jsonWs c = true)
    (hcl : jsonWs close = false) (hcc : ¬(',' = close))
    (hitems : ∀ y ∈ x :: xs, (∀ r2, itemP (print2 y ++ r2) = some (y, r2)) ∧
      ∃ c cs, print2 y = c :: cs ∧ jsonWs c = false ∧ ¬(c = close))
    (rest : List Char) :
    parseJsonArray close itemP
      ('\n' :: (ind1 ++ (joinWith (',' :: '\n' :: ind1) ((x :: xs).map print2) ++
        ('\n' :: (ind0 ++ close :: rest))))) = some (x :: xs, rest) := by
  obtain ⟨c0, cs0, hpx, hc0, hc0cl⟩ := (hitems x (List.mem_cons_self _ _)).2
  have hjoin : joinWith (',' :: '\n' :: ind1) ((x :: xs).map print2) =
      print2 x ++ (xs.map (fun y => ',' :: (('\n' :: ind1) ++ print2 y))).flatten := by
    rw [List.map_cons, joinWith_cons_flatten, List.map_map]
    rfl
  rw [hjoin]
  rw [parseJsonArray]
  rw [show ('\n' :: (ind1 ++ ((print2 x ++
      (xs.map (fun y => ',' :: (('\n' :: ind1) ++ print2 y))).flatten) ++
      ('\n' :: (ind0 ++ close :: rest))))) =
    (('\n' :: ind1) ++ (print2 x ++
      ((xs.map (fun y => ',' :: (('\n' :: ind1) ++ print2 y))).flatten ++
        (('\n' :: ind0) ++ close :: rest)))) from by simp [List.append_assoc]]
  rw [skipWs_append ('\n' :: ind1) _ (by
    intro c hc
    rcases List.mem_cons.mp hc with he | hm
    · rw [he]; rfl
    · exact hws1 c hm)]
  have hsk : skipWs (print2 x ++
      ((xs.map (fun y => ',' :: (('\n' :: ind1) ++ print2 y))).flatten ++
        (('\n' :: ind0) ++ close :: rest))) =
      print2 x ++ ((xs.map (fun y => ',' :: (('\n' :: ind1) ++ print2 y))).flatten ++
        (('\n' :: ind0) ++ close :: rest)) := by
    rw [hpx, List.cons_append]
    exact skipWs_cons_nonws _ hc0
  rw [hsk, hpx, List.cons_append]
  simp only [if_neg hc0cl]
  rw [← List.cons_append, ← hpx]
  rw [(hitems x (List.mem_cons_self _ _)).1 _]
  simp only [parseJsonArrayTail_inv close itemP print2 ('\n' :: ind1) ('\n' :: ind0)
    (by
      intro c hc
      rcases List.mem_cons.mp hc with he | hm
      · rw [he]; rfl
      · exact hws1 c hm)
    (by
      intro c hc
      rcases List.mem_cons.mp hc with he | hm
      · rw [he]; rfl
      · exact hws0 c hm)
    hcl hcc xs _ (tail_len_lt print2 ('\n' :: ind1) ('\n' :: ind0) close xs rest)
    (fun z hz => ⟨(hitems z (List.mem_cons_of_mem _ hz)).1, by
      obtain ⟨c1, cs1, h1, h2, h3⟩ := (hitems z (List.mem_cons_of_mem _ hz)).2
      exact ⟨c1, cs1, h1, h2⟩⟩) rest]

lemma skipWs_cons_ws {c : Char} (r : List Char) (h : jsonWs c = true) :
    skipWs (c :: r) = skipWs r := by
  simp [skipWs, List.dropWhile_cons, h]

lemma jsonVal_head (level : Nat) (v : PyVal) :
    ∃ c cs, jsonVal level v = c :: cs ∧ jsonWs c = false := by
  cases v with
  | vstr s => exact ⟨'"', jsonEscape s ++ ['"'], rfl, rfl⟩
  | vbool b =>
    cases b with
    | false => exact ⟨'f', strL "alse", rfl, rfl⟩
    | true => exact ⟨'t', strL "rue", rfl, rfl⟩
  | vnone => exact ⟨'n', strL "ull", rfl, rfl⟩
  | vlist l =>
    cases l with
    | nil => exact ⟨'[', [']'], rfl, rfl⟩
    | cons s ss => exact ⟨'[', _, rfl, rfl⟩

lemma parseJsonValue_inv (level : Nat) (v : PyVal) (hv : jsonSafeVal v = true)
    (rest : List Char) :
    parseJsonValue (jsonVal level v ++ rest) = some (v, rest) := by
  cases v with
  | vstr s =>
    rw [show jsonVal level (PyVal.vstr s) ++ rest =
      '"' :: (jsonEscape s ++ ('"' :: rest)) from by
      simp [jsonVal, jsonStrLit, List.append_assoc]]
    rw [parseJsonValue.eq_def]
    simp only [parseStringBody_inv s hv]
  | vbool b =>
    cases b with
    | true =>
      simp only [jsonVal]
      rw [show strL "true" = ['t', 'r', 'u', 'e'] from by decide]
      simp only [List.cons_append, List.nil_append]
      rw [parseJsonValue.eq_def]
      simp [List.isPrefixOf]
    | false =>
      simp only [jsonVal]
      rw [show strL "false" = ['f', 'a', 'l', 's', 'e'] from by decide]
      simp only [List.cons_append, List.nil_append]
      rw [parseJsonValue.eq_def]
      simp [List.isPrefixOf]
  | vnone =>
    simp only [jsonVal]
    rw [show strL "null" = ['n', 'u', 'l', 'l'] from by decide]
    simp only [List.cons_append, List.nil_append]
    rw [parseJsonValue.eq_def]
    simp [List.isPrefixOf]
  | vlist l =>
    cases l with
    | nil =>
      simp only [jsonVal]
      rw [show strL "[]" = ['[', ']'] from by decide]
      simp only [List.cons_append, List.nil_append]
      rw [parseJsonValue.eq_def]
      simp [parseJsonArray, skipWs_cons_nonws _ (show jsonWs ']' = false from rfl)]
    | cons s ss =>
      have hstrs : ∀ t ∈ s :: ss, t.all jsonSafeChar = true :=
        fun t ht => List.all_eq_true.mp hv t ht
      have harr := parseJsonArray_inv ']' parseJsonString jsonStrLit
        (jsonIndent (level + 1)) (jsonIndent level) s ss
        (jsonIndent_ws _) (jsonIndent_ws _) rfl (by decide)
        (fun y hy => ⟨fun r2 => parseJsonString_inv y (hstrs y hy) r2,
          '"', jsonEscape y ++ ['"'], rfl, rfl, by decide⟩)
        rest
      rw [show jsonVal level (PyVal.vlist (s :: ss)) ++ rest =
        '[' :: ('\n' :: (jsonIndent (level + 1) ++
          (joinWith (',' :: '\n' :: jsonIndent (level + 1)) ((s :: ss).map jsonStrLit) ++
            ('\n' :: (jsonIndent level ++ ']' :: rest))))) from by
        simp [jsonVal, List.append_assoc]]
      rw [parseJsonValue.eq_def]
      simp only [harr]

lemma parseJsonMember_inv (level : Nat) (kv : List Char × PyVal)
    (hk : kv.1.all jsonSafeChar = true) (hv : jsonSafeVal kv.2 = true)
    (rest : List Char) :
    parseJsonMember (jsonMemberStr level kv ++ rest) = some (kv, rest) := by
  obtain ⟨k, v⟩ := kv
  obtain ⟨c0, cs0, hvh, hc0⟩ := jsonVal_head level v
  have hskv : skipWs (jsonVal level v ++ rest) = jsonVal level v ++ rest := by
    rw [hvh, List.cons_append]
    exact skipWs_cons_nonws _ hc0
  rw [show jsonMemberStr level (k, v) ++ rest =
    '"' :: (jsonEscape k ++ ('"' :: (':' :: ' ' :: (jsonVal level v ++ rest)))) from by
    simp [jsonMemberStr, jsonStrLit, List.append_assoc]]
  rw [parseJsonMember.eq_def]
  simp only [parseStringBody_inv k hk,
    skipWs_cons_nonws _ (show jsonWs ':' = false from rfl),
    skipWs_cons_ws _ (show jsonWs ' ' = true from rfl),
    hskv, parseJsonValue_inv level v hv rest]

lemma jsonObj_head (level : Nat) (r : JobRec) :
    ∃ c cs, jsonObj level r = c :: cs ∧ jsonWs c = false ∧ ¬(c = ']') := by
  cases r with
  | nil => exact ⟨'{', ['}'], rfl, rfl, by decide⟩
  | cons kv kvs => exact ⟨'{', _, rfl, rfl, by decide⟩

lemma jsonObj_inv (level : Nat) : ∀ (r : JobRec),
    (∀ kv ∈ r, kv.1.all jsonSafeChar = true ∧ jsonSafeVal kv.2 = true) →
    ∀ (rest : List Char), parseJsonObj (jsonObj level r ++ rest) = some (r, rest) := by
  intro r hr rest
  cases r with
  | nil => rfl
  | cons kv kvs =>
    have harr := parseJsonArray_inv '}' parseJsonMember (jsonMemberStr (level + 1))
      (jsonIndent (level + 1)) (jsonIndent level) kv kvs
      (jsonIndent_ws _) (jsonIndent_ws _) rfl (by decide)
      (fun y hy => ⟨fun r2 =>
          parseJsonMember_inv (level + 1) y (hr y hy).1 (hr y hy).2 r2,
        '"', _, rfl, rfl, by decide⟩)
      rest
    rw [show jsonObj level (kv :: kvs) ++ rest =
      '{' :: ('\n' :: (jsonIndent (level + 1) ++
        (joinWith (',' :: '\n' :: jsonIndent (level + 1))
            ((kv :: kvs).map (jsonMemberStr (level + 1))) ++
          ('\n' :: (jsonIndent level ++ '}' :: rest))))) from by
      simp [jsonObj, List.append_assoc]]
    rw [parseJsonObj.eq_def]
    simp only [harr]

lemma readJson_save (r0 : JobRec) (rs : List JobRec)
    (hsafe : ∀ r ∈ r0 :: rs, ∀ kv ∈ r,
      kv.1.all jsonSafeChar = true ∧ jsonSafeVal kv.2 = true) :
    readJsonRecords (save_results_json (r0 :: rs)) = some (r0 :: rs) := by
  have harr := parseJsonArray_inv ']' parseJsonObj (jsonObj 1)
    (jsonIndent 1) (jsonIndent 0) r0 rs
    (jsonIndent_ws _) (jsonIndent_ws _) rfl (by decide)
    (fun y hy => ⟨fun r2 => jsonObj_inv 1 y (hsafe y hy) r2, jsonObj_head 1 y⟩)
    []
  rw [show save_results_json (r0 :: rs) =
    '[' :: ('\n' :: (jsonIndent 1 ++
      (joinWith (',' :: '\n' :: jsonIndent 1) ((r0 :: rs).map (jsonObj 1)) ++
        ('\n' :: (jsonIndent 0 ++ ']' :: ([] : List Char)))))) from rfl]
  rw [readJsonRecords.eq_def]
  simp only [skipWs_cons_nonws _ (show jsonWs '[' = false from rfl), harr]
  rfl

/-- C7 concrete record: a job dict with a string title, a boolean
`sponsors_h1b` field and a `keywords_found` list, as the scrapers produce. -/
def c7Job : JobRec :=
  [(strL "title", PyVal.vstr (strL "DevOps Engineer")),
   (strL "sponsors_h1b", PyVal.vbool true),
   (strL "keywords_found", PyVal.vlist [strL "h1b"])]

/-- C7 counterexample: the CSV round trip is not lossless. Writing the record
`{title: "DevOps Engineer", sponsors_h1b: True, keywords_found: ["h1b"]}` with
`save_results` and reading the CSV back does not reproduce the record: the
boolean comes back as the string "True" and the list as the string "['h1b']". -/
theorem c7_counterexample :
    (save_results_csv [c7Job]).bind readCsvRecords ≠ some [c7Job] := by
  decide

/-- C7 amended: the JSON round trip is lossless - reading the JSON file back
yields exactly the original records, types included - while reading the CSV
back yields, for each record, the same field names in order with every value
replaced by its csv string form (`str()`, `None` as the empty string). Hence
the CSV round trip is the identity precisely on records whose values are
already plain strings, and is lossy for booleans, `None` and keyword lists.
Hypotheses: the job list is non-empty; records carry exactly the header's
(distinct, csv-plain) field names; the stringified values contain no csv
special character (otherwise the csv writer quotes them); and the strings
contain no control characters outside the five named escapes (otherwise
`json.dump` uses 4-hex-digit escapes, which the reader model rejects). -/
theorem c7_amended_roundtrip (jobs : List JobRec) (r0 : JobRec) (rest : List JobRec)
    (hjobs : jobs = r0 :: rest)
    (hk0 : recKeys r0 ≠ [])
    (hnodup : (recKeys r0).Nodup)
    (hkeys : ∀ r ∈ jobs, recKeys r = recKeys r0)
    (hkplain : ∀ k ∈ recKeys r0, ∀ ch ∈ k, isCsvSpecial ch = false)
    (hvplain : ∀ r ∈ jobs, ∀ kv ∈ r, ∀ ch ∈ csvField kv.2, isCsvSpecial ch = false)
    (hjson : ∀ r ∈ jobs, ∀ kv ∈ r,
      kv.1.all jsonSafeChar = true ∧ jsonSafeVal kv.2 = true) :
    (save_results_csv jobs).bind readCsvRecords =
      some (jobs.map (fun r => r.map (fun kv => (kv.1, PyVal.vstr (csvField kv.2))))) ∧
    readJsonRecords (save_results_json jobs) = some jobs := by
  subst hjobs
  refine And.intro ?_ (readJson_save r0 rest (fun r hr => hjson r hr))
  have hall : ((r0 :: rest).all fun r =>
      (recKeys r).all fun k => (recKeys r0).contains k) = true := by
    rw [List.all_eq_true]
    intro r hr
    rw [List.all_eq_true]
    intro k hk
    rw [hkeys r hr] at hk
    exact List.elem_iff.mpr hk
  have hrows : ∀ row ∈ (r0 :: rest).map (fun r => rowCells (recKeys r0) r),
      row ≠ [] ∧ ∀ x ∈ row, ∀ ch ∈ x, isCsvSpecial ch = false := by
    intro row hrow
    rcases List.mem_map.mp hrow with ⟨r, hr, he⟩
    subst he
    refine ⟨?_, rowCells_plain _ _ (hvplain r hr)⟩
    intro he2
    exact hk0 (List.map_eq_nil_iff.mp he2)
  have happly := readCsv_writeRows (recKeys r0)
      ((r0 :: rest).map (fun r => rowCells (recKeys r0) r)) hk0 hkplain hrows
  have hXY : ((r0 :: rest).map (fun r => rowCells (recKeys r0) r)).map
      (fun cells => (recKeys r0).zip (cells.map PyVal.vstr)) =
      (r0 :: rest).map
        (fun r => r.map (fun kv => (kv.1, PyVal.vstr (csvField kv.2)))) := by
    rw [List.map_map]
    refine List.map_congr_left (fun r hr => ?_)
    show (recKeys r0).zip ((rowCells (recKeys r0) r).map PyVal.vstr) = _
    rw [← hkeys r hr]
    have hndr : (recKeys r).Nodup := by rw [hkeys r hr]; exact hnodup
    rw [rowCells_self r hndr, List.map_map]
    show (r.map Prod.fst).zip
        (r.map (PyVal.vstr ∘ fun kv => csvField kv.2)) = _
    rw [List.zip_map']
    rfl
  have hwrite : save_results_csv (r0 :: rest) =
      some (writeRow (recKeys r0) ++
        ((r0 :: rest).map (fun r => writeRow (rowCells (recKeys r0) r))).flatten) := by
    simp [save_results_csv, hall]
    intro x hx k hk
    rw [hkeys x (List.mem_cons_of_mem _ hx)] at hk
    exact hk
  rw [hwrite]
  show readCsvRecords (writeRow (recKeys r0) ++
      (List.map (fun r => writeRow (rowCells (recKeys r0) r)) (r0 :: rest)).flatten) = _
  rw [List.map_map] at happly
  exact Eq.trans happly (congrArg some hXY)

/-- First witness record for the amended C7: all values are plain strings. -/
def c7WitA : JobRec :=
  [(strL "title", PyVal.vstr (strL "a")), (strL "url", PyVal.vstr (strL "u1"))]

/-- Second witness record for the amended C7. -/
def c7WitB : JobRec :=
  [(strL "title", PyVal.vstr (strL "b")), (strL "url", PyVal.vstr (strL "u2"))]

/-- Witness for the amended C7 on two concrete all-string records: the
hypotheses hold, the CSV round trip reproduces the records exactly (here
`csvField` is the identity on the values), and the JSON round trip returns
the records unchanged. -/
theorem c7_amended_roundtrip_witness :
    recKeys c7WitA ≠ [] ∧
    (recKeys c7WitA).Nodup ∧
    (∀ r ∈ [c7WitA, c7WitB], recKeys r = recKeys c7WitA) ∧
    (∀ k ∈ recKeys c7WitA, ∀ ch ∈ k, isCsvSpecial ch = false) ∧
    (∀ r ∈ [c7WitA, c7WitB], ∀ kv ∈ r, ∀ ch ∈ csvField kv.2, isCsvSpecial ch = false) ∧
    (∀ r ∈ [c7WitA, c7WitB], ∀ kv ∈ r,
      kv.1.all jsonSafeChar = true ∧ jsonSafeVal kv.2 = true) ∧
    ((save_results_csv [c7WitA, c7WitB]).bind readCsvRecords =
      some ([c7WitA, c7WitB].map
        (fun r => r.map (fun kv => (kv.1, PyVal.vstr (csvField kv.2))))) ∧
     readJsonRecords (save_results_json [c7WitA, c7WitB]) = some [c7WitA, c7WitB]) :=
  ⟨by decide, by decide, by decide, by decide, by decide, by decide,
   c7_amended_roundtrip [c7WitA, c7WitB] c7WitA [c7WitB] rfl (by decide) (by decide)
     (by decide) (by decide) (by decide) (by decide)⟩

/-- Python truthiness of the values occurring in job dicts. -/
def pyTruthy : PyVal → Bool
  | .vstr s => !s.isEmpty
  | .vbool b => b
  | .vnone => false
  | .vlist l => !l.isEmpty

/-- Python `job.get(key, default)`. -/
def recGet (r : JobRec) (k : List Char) (d : PyVal) : PyVal :=
  (List.lookup k r).getD d

/-- URL-deduplication loop of `main()` in the main script:
`url = job.get('url', '')`; skip the job when the url is in `seen_urls`,
otherwise keep it and add the url to the set. -/
def main_remove_duplicates_go (seen : List PyVal) : List JobRec → List JobRec
  | [] => []
  | job :: rest =>
    let url := recGet job (strL "url") (PyVal.vstr [])
    if url ∈ seen then main_remove_duplicates_go seen rest
    else job :: main_remove_duplicates_go (url :: seen) rest

/-- The whole dedup step of the main script's `main()` (empty seen set). -/
def main_remove_duplicates (jobs : List JobRec) : List JobRec :=
  main_remove_duplicates_go [] jobs

/-- Signature string `f"{title}-{company}-{location}"` built by the
alternative script for jobs without a url. -/
def jobSignature (job : JobRec) : List Char :=
  pyStr (recGet job (strL "title") (PyVal.vstr [])) ++ '-' ::
    (pyStr (recGet job (strL "company") (PyVal.vstr [])) ++ '-' ::
      pyStr (recGet job (strL "location") (PyVal.vstr [])))

/-- URL-deduplication loop of `main()` in the alternative script: a job with a
truthy url is deduplicated on the url; a job without one is deduplicated on
its title-company-location signature; both keys share the one seen set. -/
def alt_remove_duplicates_go (seen : List PyVal) : List JobRec → List JobRec
  | [] => []
  | job :: rest =>
    let url := recGet job (strL "url") (PyVal.vstr [])
    if pyTruthy url then
      if url ∈ seen then alt_remove_duplicates_go seen rest
      else job :: alt_remove_duplicates_go (url :: seen) rest
    else
      let sig := PyVal.vstr (jobSignature job)
      if sig ∈ seen then alt_remove_duplicates_go seen rest
      else job :: alt_remove_duplicates_go (sig :: seen) rest

/-- The whole dedup step of the alternative script's `main()`. -/
def alt_remove_duplicates (jobs : List JobRec) : List JobRec :=
  alt_remove_duplicates_go [] jobs

/-- Formalization of the claim's wording, for comparison with the loops above:
keep, in the original order, exactly the first record for each distinct key,
dropping every later record with the same key. -/
def keepFirstByKey (key : JobRec → PyVal) : List JobRec → List JobRec
  | [] => []
  | job :: rest =>
    job :: keepFirstByKey key (rest.filter (fun j2 => decide (key j2 ≠ key job)))
termination_by l => l.length
decreasing_by
  simp_wf
  exact Nat.lt_succ_of_le (List.length_filter_le _ _)

/-- Dedup key actually used by the main script: the url value (default ""). -/
def mainJobKey (job : JobRec) : PyVal := recGet job (strL "url") (PyVal.vstr [])

/-- Effective dedup key of the alternative script: the url when truthy,
otherwise the signature string. -/
def altJobKey (job : JobRec) : PyVal :=
  let url := recGet job (strL "url") (PyVal.vstr [])
  if pyTruthy url then url else PyVal.vstr (jobSignature job)

lemma main_go_eq_keepFirst (l : List JobRec) : ∀ (seen : List PyVal),
    main_remove_duplicates_go seen l =
      keepFirstByKey mainJobKey (l.filter (fun j => decide (mainJobKey j ∉ seen))) := by
  induction l with
  | nil => intro seen; simp [main_remove_duplicates_go, keepFirstByKey]
  | cons job rest ih =>
    intro seen
    rw [main_remove_duplicates_go]
    show (if mainJobKey job ∈ seen then main_remove_duplicates_go seen rest
        else job :: main_remove_duplicates_go (mainJobKey job :: seen) rest) =
      keepFirstByKey mainJobKey
        (List.filter (fun j => decide (mainJobKey j ∉ seen)) (job :: rest))
    by_cases hmem : mainJobKey job ∈ seen
    · rw [if_pos hmem, List.filter_cons_of_neg (by simp [hmem]), ih seen]
    · rw [if_neg hmem, List.filter_cons_of_pos (by simp [hmem])]
      rw [keepFirstByKey, ih (mainJobKey job :: seen), List.filter_filter]
      refine congrArg (fun l2 => job :: keepFirstByKey mainJobKey l2)
        (List.filter_congr ?_)
      intro a _
      by_cases h1 : mainJobKey a = mainJobKey job <;>
        by_cases h2 : mainJobKey a ∈ seen <;>
          simp [h1, h2, List.mem_cons]

lemma alt_go_eq_keepFirst (l : List JobRec) : ∀ (seen : List PyVal),
    alt_remove_duplicates_go seen l =
      keepFirstByKey altJobKey (l.filter (fun j => decide (altJobKey j ∉ seen))) := by
  induction l with
  | nil => intro seen; simp [alt_remove_duplicates_go, keepFirstByKey]
  | cons job rest ih =>
    intro seen
    rw [alt_remove_duplicates_go]
    by_cases htr : pyTruthy (recGet job (strL "url") (PyVal.vstr []))
    · have hkey : altJobKey job = recGet job (strL "url") (PyVal.vstr []) := by
        simp [altJobKey, htr]
      rw [if_pos htr, ← hkey]
      by_cases hmem : altJobKey job ∈ seen
      · rw [if_pos hmem, List.filter_cons_of_neg (by simp [hmem]), ih seen]
      · rw [if_neg hmem, List.filter_cons_of_pos (by simp [hmem])]
        rw [keepFirstByKey, ih (altJobKey job :: seen), List.filter_filter]
        refine congrArg (fun l2 => job :: keepFirstByKey altJobKey l2)
          (List.filter_congr ?_)
        intro a _
        by_cases h1 : altJobKey a = altJobKey job <;>
          by_cases h2 : altJobKey a ∈ seen <;>
            simp [h1, h2, List.mem_cons]
    · have hkey : altJobKey job = PyVal.vstr (jobSignature job) := by
        simp [altJobKey, htr]
      rw [if_neg htr, ← hkey]
      by_cases hmem : altJobKey job ∈ seen
      · rw [if_pos hmem, List.filter_cons_of_neg (by simp [hmem]), ih seen]
      · rw [if_neg hmem, List.filter_cons_of_pos (by simp [hmem])]
        rw [keepFirstByKey, ih (altJobKey job :: seen), List.filter_filter]
        refine congrArg (fun l2 => job :: keepFirstByKey altJobKey l2)
          (List.filter_congr ?_)
        intro a _
        by_cases h1 : altJobKey a = altJobKey job <;>
          by_cases h2 : altJobKey a ∈ seen <;>
            simp [h1, h2, List.mem_cons]

/-- First counterexample record for C9: empty url, title "a". -/
def c9JobA : JobRec :=
  [(strL "title", PyVal.vstr (strL "a")), (strL "url", PyVal.vstr [])]

/-- Second counterexample record for C9: empty url, title "b". -/
def c9JobB : JobRec :=
  [(strL "title", PyVal.vstr (strL "b")), (strL "url", PyVal.vstr [])]

/-- C9 counterexample: in the alternative script, two records with the same
(empty) url but different titles are BOTH kept - its dedup loop falls back to
the title-company-location signature for url-less records - whereas the
claimed keep-first-per-distinct-url rule would keep only the first. -/
theorem c9_counterexample :
    alt_remove_duplicates [c9JobA, c9JobB] = [c9JobA, c9JobB] ∧
    mainJobKey c9JobA = mainJobKey c9JobB ∧
    keepFirstByKey mainJobKey [c9JobA, c9JobB] = [c9JobA] := by
  refine ⟨rfl, rfl, ?_⟩
  rw [keepFirstByKey]
  rw [show List.filter (fun j2 => decide (mainJobKey j2 ≠ mainJobKey c9JobA)) [c9JobB]
      = [] from rfl]
  rw [keepFirstByKey]

/-- C9 amended: the main script's dedup keeps, in order, exactly the first
record per distinct url value (so all empty-url records collapse to the first
one); the alternative script's dedup keeps exactly the first record per
distinct effective key, where the key is the url when truthy and otherwise
the title-company-location signature (one shared seen set). -/
theorem c9_amended_dedup :
    (∀ jobs : List JobRec,
      main_remove_duplicates jobs = keepFirstByKey mainJobKey jobs) ∧
    (∀ jobs : List JobRec,
      alt_remove_duplicates jobs = keepFirstByKey altJobKey jobs) := by
  constructor
  · intro jobs
    rw [main_remove_duplicates, main_go_eq_keepFirst]
    rw [List.filter_eq_self.mpr (fun a _ => by simp)]
  · intro jobs
    rw [alt_remove_duplicates, alt_go_eq_keepFirst]
    rw [List.filter_eq_self.mpr (fun a _ => by simp)]

/-- Uppercase hex digit of a value below 16, as `urllib.parse.quote` emits. -/
def hexDigit (n : Nat) : Char :=
  if n < 10 then Char.ofNat (48 + n) else Char.ofNat (55 + n)

/-- Percent-encoding of one ASCII character under `urllib.parse.quote` with
the default `safe='/'`: letters, digits, `_.-~` and `/` pass through. -/
def quoteChar (c : Char) : List Char :=
  if c.isAlphanum || c = '_' || c = '.' || c = '-' || c = '~' || c = '/' then [c]
  else ['%', hexDigit (c.toNat / 16), hexDigit (c.toNat % 16)]

/-- `urllib.parse.quote` on the ASCII strings used here. -/
def urlQuote (s : List Char) : List Char := (s.map quoteChar).flatten

/-- `MyVisaJobsScraper.generate_job_search_url`: Google search link built from
`f'{company} {job_title} careers jobs'`. -/
def generate_job_search_url (company job_title : List Char) : List Char :=
  strL "https://www.google.com/search?q=" ++
    urlQuote (company ++ ' ' :: (job_title ++ strL " careers jobs"))

/-- One entry of the hardcoded fallback employer table. -/
def mkEmp (c h s : String) : JobRec :=
  [(strL "company", PyVal.vstr (strL c)),
   (strL "h1b_count", PyVal.vstr (strL h)),
   (strL "avg_salary", PyVal.vstr (strL s))]

/-- The hardcoded `fallback_employers` table inside
`get_fallback_employer_list` (all 42 entries, in source order). -/
def fallback_employers : List JobRec :=
  [mkEmp "Microsoft Corporation" "4,970" "$147,426",
   mkEmp "Amazon.com Services LLC" "3,871" "$139,529",
   mkEmp "Google LLC" "3,591" "$161,254",
   mkEmp "Meta Platforms Inc" "2,074" "$173,687",
   mkEmp "Apple Inc" "2,450" "$156,534",
   mkEmp "Databricks Inc" "523" "$152,436",
   mkEmp "Snowflake Computing" "417" "$145,982",
   mkEmp "Stripe Inc" "289" "$148,293",
   mkEmp "Coinbase Global" "196" "$138,745",
   mkEmp "Datadog Inc" "234" "$141,876",
   mkEmp "Elastic NV" "178" "$135,234",
   mkEmp "HashiCorp Inc" "142" "$138,456",
   mkEmp "GitLab Inc" "98" "$131,234",
   mkEmp "MongoDB Inc" "215" "$139,876",
   mkEmp "Confluent Inc" "186" "$142,345",
   mkEmp "Temporal Technologies" "23" "$125,432",
   mkEmp "Pulumi Corporation" "31" "$128,765",
   mkEmp "Teleport Inc" "27" "$124,567",
   mkEmp "Airbyte Inc" "18" "$119,876",
   mkEmp "Astronomer Inc" "21" "$121,234",
   mkEmp "Harness Inc" "43" "$127,890",
   mkEmp "LaunchDarkly" "37" "$123,456",
   mkEmp "Kong Inc" "48" "$125,678",
   mkEmp "Grafana Labs" "52" "$128,901",
   mkEmp "InfluxData Inc" "26" "$120,123",
   mkEmp "Sysdig Inc" "29" "$122,345",
   mkEmp "CircleCI" "34" "$126,789",
   mkEmp "Buildkite" "15" "$118,234",
   mkEmp "Sourcegraph" "38" "$129,456",
   mkEmp "Square Inc (Block)" "312" "$145,678",
   mkEmp "Robinhood Markets" "178" "$138,901",
   mkEmp "Affirm Inc" "156" "$134,567",
   mkEmp "Plaid Inc" "89" "$136,789",
   mkEmp "Chime Financial" "67" "$128,345",
   mkEmp "Accenture LLP" "8,123" "$98,432",
   mkEmp "Deloitte Consulting" "6,987" "$102,345",
   mkEmp "EPAM Systems" "2,145" "$108,765",
   mkEmp "Thoughtworks Inc" "234" "$115,432",
   mkEmp "Goldman Sachs" "1,567" "$138,234",
   mkEmp "JPMorgan Chase" "3,234" "$128,456",
   mkEmp "Capital One" "2,089" "$125,678",
   mkEmp "Bloomberg LP" "823" "$142,345"]

/-- String content of a field (the fallback table stores only strings). -/
def recGetStr (r : JobRec) (k : List Char) : List Char :=
  match List.lookup k r with
  | some (PyVal.vstr s) => s
  | _ => []

/-- `emp['avg_salary'].replace('$', '').replace(',', '')`. -/
def stripSalaryChars (s : List Char) : List Char :=
  (s.filter (fun c => !(c = '$'))).filter (fun c => !(c = ','))

/-- Python `str.isdigit` on ASCII text: non-empty and all digits. -/
def pyIsDigitStr (s : List Char) : Bool := !s.isEmpty && s.all Char.isDigit

/-- Filtering loop of `get_fallback_employer_list`: keep an employer when its
cleaned salary string is all digits and parses to at least `min_salary`,
and attach the `job_search_url` field to each kept record. -/
def gfelGo (job_title : List Char) (min_salary : Int) : List JobRec → List JobRec
  | [] => []
  | emp :: rest =>
    let salary_str := stripSalaryChars (recGetStr emp (strL "avg_salary"))
    if pyIsDigitStr salary_str then
      if min_salary ≤ (digitsToNat salary_str : Int) then
        (emp ++ [(strL "job_search_url",
            PyVal.vstr (generate_job_search_url
              (recGetStr emp (strL "company")) job_title))])
          :: gfelGo job_title min_salary rest
      else gfelGo job_title min_salary rest
    else gfelGo job_title min_salary rest

/-- `MyVisaJobsScraper.get_fallback_employer_list`. -/
def get_fallback_employer_list (job_title : List Char) (min_salary : Int) :
    List JobRec :=
  gfelGo job_title min_salary fallback_employers

lemma lookup_append (k : List Char) (l1 l2 : JobRec) :
    List.lookup k (l1 ++ l2) =
      match List.lookup k l1 with
      | some v => some v
      | none => List.lookup k l2 := by
  induction l1 with
  | nil => rfl
  | cons kv l1 ih =>
    obtain ⟨k', v'⟩ := kv
    rw [List.cons_append]
    cases hbe : (k == k') with
    | true => simp [List.lookup_cons, hbe]
    | false => simp [List.lookup_cons, hbe, ih]

lemma recGetStr_append_jsu (emp : JobRec) (v : PyVal) :
    recGetStr (emp ++ [(strL "job_search_url", v)]) (strL "avg_salary") =
      recGetStr emp (strL "avg_salary") := by
  unfold recGetStr
  rw [lookup_append]
  cases h : List.lookup (strL "avg_salary") emp with
  | some w => rfl
  | none =>
    have hb : (strL "avg_salary" == strL "job_search_url") = false := by decide
    simp [List.lookup_cons, hb]

lemma lookup_jsu_append (emp : JobRec) (v : PyVal) :
    List.lookup (strL "job_search_url") (emp ++ [(strL "job_search_url", v)]) ≠
      none := by
  rw [lookup_append]
  cases h : List.lookup (strL "job_search_url") emp with
  | some w => simp
  | none => simp [List.lookup_cons]

lemma gfelGo_mem (job_title : List Char) (min_salary : Int) :
    ∀ (l : List JobRec), ∀ r ∈ gfelGo job_title min_salary l,
      pyIsDigitStr (stripSalaryChars (recGetStr r (strL "avg_salary"))) = true ∧
      min_salary ≤
        (digitsToNat (stripSalaryChars (recGetStr r (strL "avg_salary"))) : Int) ∧
      List.lookup (strL "job_search_url") r ≠ none := by
  intro l
  induction l with
  | nil => intro r hr; simp [gfelGo] at hr
  | cons emp rest ih =>
    intro r hr
    rw [gfelGo] at hr
    split at hr
    · split at hr
      · rcases List.mem_cons.mp hr with he | hm
        · subst he
          rw [recGetStr_append_jsu]
          refine ⟨by assumption, by assumption, lookup_jsu_append emp _⟩
        · exact ih r hm
      · exact ih r hr
    · exact ih r hr

/-- C10: every employer record returned by `get_fallback_employer_list` has an
`avg_salary` string that, after removing "$" and ",", is a non-empty string of
digits denoting an integer at least `min_salary`, and carries a
`job_search_url` field; employers whose salary string does not parse this way
are excluded by the filter. -/
theorem c10_fallback_salary_filter (job_title : List Char) (min_salary : Int)
    (r : JobRec) (hr : r ∈ get_fallback_employer_list job_title min_salary) :
    pyIsDigitStr (stripSalaryChars (recGetStr r (strL "avg_salary"))) = true ∧
    min_salary ≤
      (digitsToNat (stripSalaryChars (recGetStr r (strL "avg_salary"))) : Int) ∧
    List.lookup (strL "job_search_url") r ≠ none :=
  gfelGo_mem job_title min_salary fallback_employers r hr

/-- The record `get_fallback_employer_list` produces for its first table entry. -/
def c10Wit : JobRec :=
  mkEmp "Microsoft Corporation" "4,970" "$147,426" ++
    [(strL "job_search_url", PyVal.vstr
      (generate_job_search_url (strL "Microsoft Corporation")
        (strL "DevOps Engineer")))]

/-- Witness for C10 at the default query "DevOps Engineer" / 80000: the first
returned record satisfies the membership hypothesis and the conclusion. -/
theorem c10_fallback_salary_filter_witness :
    c10Wit ∈ get_fallback_employer_list (strL "DevOps Engineer") 80000 ∧
    (pyIsDigitStr (stripSalaryChars (recGetStr c10Wit (strL "avg_salary"))) = true ∧
     (80000 : Int) ≤
       (digitsToNat (stripSalaryChars (recGetStr c10Wit (strL "avg_salary"))) : Int) ∧
     List.lookup (strL "job_search_url") c10Wit ≠ none) :=
  ⟨by decide, c10_fallback_salary_filter (strL "DevOps Engineer") 80000 c10Wit (by decide)⟩
